import Mathlib

/-!
Verification of the BLIF front end of arachne-pnr (`src/blif.cc`).

The development shallowly embeds the pieces of the parser that the
specification talks about:

* `stobv` — the strict binary-constant decoder (`BlifParser::stobv`);
* `getNumericValue`, `radiant_stobv` — the multi-radix literal decoder
  (`BlifParser::radiant_stobv`), with the 64-bit accumulator modelled as a
  `Nat` reduced modulo `2 ^ 64`;
* `namesLoop` / `dotNames` — the nested `.names` truth-table sub-grammar;
* `unifyStep` / `unifyRun` / `unifyModel` — the post-parse union-find
  unification of aliased nets;
* `checkBidir`, `boundaryNets`, `checkDrivers` — the post-parse consistency
  validation (bidirectional-port wiring, boundary nets, single-driver rule).

Fatal errors (`fatal(...)` in the C++) are modelled with `Except String`.
Bit-vectors are lists of booleans, least-significant bit first.  Parts of the
netlist data model that live in `netlist.hh` (not part of the embedded
source) are modelled from the specification and marked as such.
-/

set_option autoImplicit false

namespace Blif

/-- A bit-vector: booleans, least-significant bit first. -/
abbrev BitVec' := List Bool

/-- One step of `BlifParser::stobv`'s character decoding: `'1'` is a set bit,
`'0'`, `'x'`, `'X'` a cleared bit, anything else is fatal.  The loop in the
source walks the string from its last character (bit 0) to its first, so
`stobvLoop` is applied to the reversed character list. -/
def stobvLoop : List Char → Except String BitVec'
  | [] => .ok []
  | c :: cs =>
    if c = '1' then (stobvLoop cs).map (fun bs => true :: bs)
    else if c = '0' ∨ c = 'x' ∨ c = 'X' then (stobvLoop cs).map (fun bs => false :: bs)
    else .error "invalid character in integer constant"

/-- `BlifParser::stobv`: decode a binary-constant string into a bit-vector of
the same length; bit `i` comes from source character `(n - 1) - i`. -/
def stobv (s : List Char) : Except String BitVec' :=
  stobvLoop s.reverse

/-- `getNumericValue` from `blif.cc`: case-insensitive alphanumeric digit
value (`'0'`–`'9'` → 0–9, `'A'`–`'Z'` → 10–35), `-1` otherwise.  `toupper`
is modelled on ASCII letters. -/
def getNumericValue (c : Char) : Int :=
  let u := if 'a' ≤ c ∧ c ≤ 'z' then Char.ofNat (c.toNat - 32) else c
  if '0' ≤ u ∧ u ≤ '9' then (u.toNat : Int) - 48
  else if 'A' ≤ u ∧ u ≤ 'Z' then ((u.toNat : Int) - 65) + 10
  else -1

/-- The radix-selecting prefix scan of `BlifParser::radiant_stobv`: returns
`(offset, base, log2base)`.  `log2base` is only meaningful for bases 2, 8
and 16 (the source leaves it `-1` for base 10; it is never read there). -/
def radiantBase (s : List Char) : Nat × Nat × Nat :=
  if 2 ≤ s.length then
    if s.getD 0 ' ' = '0' then
      if s.getD 1 ' ' = 'x' then (2, 16, 4)
      else if s.getD 1 ' ' = 'b' then (2, 2, 1)
      else (1, 8, 3)
    else (0, 10, 0)
  else (0, 10, 0)

/-- The base-10 accumulation loop of `radiant_stobv`.  The `uint64_t`
accumulator is a `Nat` reduced modulo `2 ^ 64`; the source's overflow test
`(intval * 10 + cval) < intval` compares the wrapped result with the old
accumulator.  `.ok none` models `return false` (fall-back to string). -/
def radiantDecLoop : List Char → Nat → Except String (Option Nat)
  | [], intval => .ok (some intval)
  | c :: rest, intval =>
    let cval := getNumericValue c
    if cval = -1 then .ok none
    else
      let next := (intval * 10 + cval.toNat) % 2 ^ 64
      if next < intval then .error "decimal integer overflow in parameter"
      else radiantDecLoop rest next

/-- The low `k` bits of `v`, least-significant first: the source writes
`out[i * log2base + j] = (cval & (1 << j)) != 0` for `j < log2base`. -/
def bitsOf (v k : Nat) : BitVec' :=
  (List.range k).map (fun j => v.testBit j)

/-- The base-2/8/16 digit loop of `radiant_stobv`, applied to the digit
characters in least-significant-first order (the source indexes
`s[s.length() - (1 + i)]`).  Digit `i` occupies bits
`i * log2base ..< (i+1) * log2base` of the result. -/
def radiantPowLoop (log2base : Nat) : List Char → Option BitVec'
  | [] => some []
  | c :: rest =>
    let cval := getNumericValue c
    if cval = -1 then none
    else (radiantPowLoop log2base rest).map (fun bs => bitsOf cval.toNat log2base ++ bs)

/-- `BlifParser::radiant_stobv`: `.error` models a `fatal(...)`, `.ok none`
models `return false` (not decoded, fall back to string storage) and
`.ok (some bv)` models `return true` with `out = bv`. -/
def radiant_stobv (s : List Char) : Except String (Option BitVec') :=
  if 0 < s.length then
    let p := radiantBase s
    if p.2.1 = 10 then
      match radiantDecLoop (s.drop p.1) 0 with
      | .error m => .error m
      | .ok none => .ok none
      | .ok (some v) => .ok (some (bitsOf v 64))
    else
      match radiantPowLoop p.2.2 (s.drop p.1).reverse with
      | none => .ok none
      | some bs => .ok (some bs)
  else .ok none

/-! ### C1: the binary-constant decoder -/

theorem stobvLoop_ok (l : List Char)
    (h : ∀ c ∈ l, c = '0' ∨ c = '1' ∨ c = 'x' ∨ c = 'X') :
    stobvLoop l = .ok (l.map (fun c => c == '1')) := by
  induction l with
  | nil => rfl
  | cons c cs ih =>
    have hc := h c (List.mem_cons_self c cs)
    have hcs : ∀ x ∈ cs, x = '0' ∨ x = '1' ∨ x = 'x' ∨ x = 'X' :=
      fun x hx => h x (List.mem_cons_of_mem c hx)
    by_cases h1 : c = '1'
    · subst h1
      simp [stobvLoop, ih hcs, Except.map]
    · have h0 : c = '0' ∨ c = 'x' ∨ c = 'X' := by tauto
      simp [stobvLoop, h1, h0, ih hcs, Except.map]

theorem stobvLoop_err (l : List Char)
    (h : ∃ c ∈ l, ¬(c = '0' ∨ c = '1' ∨ c = 'x' ∨ c = 'X')) :
    stobvLoop l = .error "invalid character in integer constant" := by
  induction l with
  | nil => simp at h
  | cons c cs ih =>
    by_cases hgood : c = '0' ∨ c = '1' ∨ c = 'x' ∨ c = 'X'
    · obtain ⟨d, hd, hdbad⟩ := h
      rcases List.mem_cons.mp hd with rfl | hd'
      · exact absurd hgood hdbad
      · have herr := ih ⟨d, hd', hdbad⟩
        by_cases h1 : c = '1'
        · simp [stobvLoop, h1, herr, Except.map]
        · have h0 : c = '0' ∨ c = 'x' ∨ c = 'X' := by tauto
          simp [stobvLoop, h1, h0, herr, Except.map]
    · have h1 : ¬c = '1' := by tauto
      have h0 : ¬(c = '0' ∨ c = 'x' ∨ c = 'X') := by tauto
      simp [stobvLoop, h1, h0]

/-- **C1.**  For every string over `{0,1,x,X}` of length `N`, `stobv` returns
a bit-vector of length `N` whose bit `i` (LSB first) is set iff the character
at source position `N - 1 - i` is `'1'`; for every string containing any
other character, `stobv` fails fatally with
`invalid character in integer constant`. -/
theorem stobv_spec (s : List Char) :
    ((∀ c ∈ s, c = '0' ∨ c = '1' ∨ c = 'x' ∨ c = 'X') →
      ∃ bv, stobv s = .ok bv ∧ bv.length = s.length ∧
        ∀ i, i < s.length →
          (bv.getD i false = true ↔ s.getD (s.length - 1 - i) 'x' = '1'))
    ∧ ((¬∀ c ∈ s, c = '0' ∨ c = '1' ∨ c = 'x' ∨ c = 'X') →
      stobv s = .error "invalid character in integer constant") := by
  constructor
  · intro h
    refine ⟨s.reverse.map (fun c => c == '1'), ?_, by simp, ?_⟩
    · exact stobvLoop_ok s.reverse fun c hc => h c (List.mem_reverse.mp hc)
    · intro i hi
      have hlen : (s.reverse.map (fun c => c == '1')).length = s.length := by simp
      have hi1 : i < (s.reverse.map (fun c => c == '1')).length := by simpa using hi
      have hi2 : s.length - 1 - i < s.length := by omega
      rw [List.getD_eq_getElem _ _ hi1, List.getD_eq_getElem _ _ hi2]
      have hi3 : i < s.reverse.length := by simpa using hi
      rw [List.getElem_map]
      rw [List.getElem_reverse]
      simp
  · intro h
    obtain ⟨c, hc⟩ := not_forall.mp h
    obtain ⟨hmem, hbad⟩ := Classical.not_imp.mp hc
    exact stobvLoop_err s.reverse ⟨c, List.mem_reverse.mpr hmem, hbad⟩

theorem stobv_spec_witness :
    ∃ bv, stobv [ '1', '0', 'x'] = .ok bv ∧ bv.length = 3 ∧
      ∀ i, i < 3 →
        (bv.getD i false = true ↔ [ '1', '0', 'x'].getD (3 - 1 - i) 'x' = '1') :=
  (stobv_spec [ '1', '0', 'x']).1 (by decide)

/-! ### C2: the decimal overflow check misses a wraparound case -/

/-- The decimal digit string `184467440737095516159`, whose value
`10 * (2 ^ 64 - 1) + 9` exceeds `2 ^ 64 - 1`. -/
def overflowInput : List Char := "184467440737095516159".toList

/-- **C2 (code bug).**  The claim says every radix-10 string denoting a value
above `2 ^ 64 - 1` fails fatally with the decimal-overflow error.  The
source's overflow test `(intval * 10 + cval) < intval` misses the single
wraparound case `intval = 2 ^ 64 - 1`, `cval = 9`, where the wrapped result
equals the old accumulator: on `184467440737095516159` the decoder returns
success with the wrapped 64-bit value `2 ^ 64 - 1` instead of aborting. -/
theorem radiant_stobv_overflow_missed :
    radiant_stobv overflowInput = .ok (some (bitsOf (2 ^ 64 - 1) 64)) ∧
      2 ^ 64 - 1 < 184467440737095516159 :=
  ⟨by rfl, by norm_num⟩

/-! ### C3: fall-back behaviour of the base-2/8/16 digit loop -/

/-- **C3 (counterexample).**  The claim says a digit whose value does not fit
the radix (such as `'9'` under radix 8) causes fall-back to string storage.
In the source, only `getNumericValue` returning `-1` (a non-alphanumeric
character) falls back; `'9'` has value 9 and is accepted, its value truncated
to the low 3 bits (`9 & 7 = 1`): `"09"` decodes successfully. -/
theorem radiant_stobv_octal_digit9 :
    radiant_stobv [ '0', '9'] = .ok (some [true, false, false]) := by
  rfl

theorem radiantPowLoop_none (k : Nat) (l : List Char)
    (h : ∃ c ∈ l, getNumericValue c = -1) :
    radiantPowLoop k l = none := by
  induction l with
  | nil => simp at h
  | cons c cs ih =>
    by_cases hc : getNumericValue c = -1
    · simp [radiantPowLoop, hc]
    · obtain ⟨d, hd, hdv⟩ := h
      rcases List.mem_cons.mp hd with rfl | hd'
      · exact absurd hdv hc
      · simp [radiantPowLoop, hc, ih ⟨d, hd', hdv⟩]

theorem radiantPowLoop_some (k : Nat) (l : List Char)
    (h : ∀ c ∈ l, getNumericValue c ≠ -1) :
    ∃ bs, radiantPowLoop k l = some bs ∧ bs.length = l.length * k := by
  induction l with
  | nil => exact ⟨[], rfl, by simp⟩
  | cons c cs ih =>
    obtain ⟨bs, hbs, hlen⟩ := ih fun d hd => h d (List.mem_cons_of_mem c hd)
    have hc := h c (List.mem_cons_self c cs)
    refine ⟨bitsOf (getNumericValue c).toNat k ++ bs, ?_, ?_⟩
    · simp [radiantPowLoop, hc, hbs]
    · simp [bitsOf, hlen]
      ring

/-- **C3 (amended).**  For a radix-2/8/16 prefix, a remaining character that
is not alphanumeric (`getNumericValue` = `-1`) causes fall-back to string
storage; an alphanumeric character never causes fall-back, even when its
digit value does not fit the radix — its value is truncated to the radix's
bits per digit.  When all remaining characters are alphanumeric, decoding
succeeds with width = (digit count) × (bits per digit). -/
theorem radiant_pow_amended (s : List Char) (off b k : Nat)
    (hb : radiantBase s = (off, b, k)) (h10 : b ≠ 10) :
    ((∃ c ∈ s.drop off, getNumericValue c = -1) → radiant_stobv s = .ok none)
    ∧ ((∀ c ∈ s.drop off, getNumericValue c ≠ -1) →
      ∃ bs, radiant_stobv s = .ok (some bs) ∧ bs.length = (s.length - off) * k) := by
  have hlen2 : 2 ≤ s.length := by
    by_contra hlen
    rw [radiantBase, if_neg hlen] at hb
    have hb10 : (10 : Nat) = b := congrArg (fun t => t.2.1) hb
    exact h10 hb10.symm
  have hpos : 0 < s.length := by omega
  constructor
  · intro ⟨c, hc, hcv⟩
    have hnone : radiantPowLoop k (s.drop off).reverse = none :=
      radiantPowLoop_none _ _ ⟨c, List.mem_reverse.mpr hc, hcv⟩
    simp [radiant_stobv, hpos, hb, h10, hnone]
  · intro h
    obtain ⟨bs, hbs, hblen⟩ :=
      radiantPowLoop_some k (s.drop off).reverse
        fun c hc => h c (List.mem_reverse.mp hc)
    refine ⟨bs, ?_, ?_⟩
    · simp [radiant_stobv, hpos, hb, h10, hbs]
    · simpa using hblen

theorem radiant_pow_amended_witness :
    radiant_stobv [ '0', 'x', '!'] = .ok none :=
  (radiant_pow_amended [ '0', 'x', '!'] 2 16 4 rfl (by decide)).1
    ⟨ '!', by decide, by decide⟩

/-! ### C4: fall-back behaviour of the base-10 loop -/

/-- **C4 (counterexample).**  The claim says any radix-10 string containing a
non-decimal-digit character — including letters such as `'a'` — falls back to
string storage.  In the source, `getNumericValue 'a' = 10 ≠ -1`, so `"1a"` is
accepted as the "decimal" number `1 * 10 + 10 = 20`. -/
theorem radiant_stobv_decimal_letter :
    radiant_stobv [ '1', 'a'] = .ok (some (bitsOf 20 64)) := by
  rfl

theorem radiantDecLoop_append_bad (pre : List Char) (c : Char) (rest : List Char)
    (a v : Nat) (hc : getNumericValue c = -1)
    (hpre : radiantDecLoop pre a = .ok (some v)) :
    radiantDecLoop (pre ++ c :: rest) a = .ok none := by
  induction pre generalizing a with
  | nil => simp [radiantDecLoop, hc]
  | cons d ds ih =>
    simp only [List.cons_append, radiantDecLoop] at hpre ⊢
    by_cases hd : getNumericValue d = -1
    · rw [if_pos hd] at hpre
      exact Option.noConfusion (Except.ok.inj hpre)
    · rw [if_neg hd] at hpre ⊢
      by_cases hov : (a * 10 + (getNumericValue d).toNat) % 2 ^ 64 < a
      · rw [if_pos hov] at hpre
        exact Except.noConfusion hpre
      · rw [if_neg hov] at hpre ⊢
        exact ih _ hpre

/-- **C4 (amended).**  For a radix-10 input (`radiantBase` yields base 10,
always with offset 0), a non-alphanumeric character causes fall-back to
string storage — provided the digits before it are accumulated without the
decimal-overflow fatal.  Alphanumeric characters, including letters (values
10–35), are accepted as digits and never cause fall-back. -/
theorem radiant_dec_amended (s pre rest : List Char) (c : Char) (v : Nat)
    (hb : radiantBase s = (0, 10, 0))
    (hsplit : s = pre ++ c :: rest)
    (hc : getNumericValue c = -1)
    (hpre : radiantDecLoop pre 0 = .ok (some v)) :
    radiant_stobv s = .ok none := by
  have hpos : 0 < s.length := by
    rw [hsplit]
    simp
  have hrun : radiantDecLoop s 0 = .ok none := by
    rw [hsplit]
    exact radiantDecLoop_append_bad pre c rest 0 v hc hpre
  simp [radiant_stobv, hpos, hb, hrun]

theorem radiant_dec_amended_witness :
    radiant_stobv [ '1', '!'] = .ok none :=
  radiant_dec_amended [ '1', '!'] [ '1'] [] '!' 1 rfl rfl (by decide) rfl

/-! ### The `.names` truth-table sub-grammar (`BlifParser::parse`, `.names`) -/

/-- Constant value of a net (the netlist model's `Value`). -/
inductive Value
  | ZERO
  | ONE
deriving DecidableEq

/-- One logical line, as the external tokenizer delivers it: the list of its
whitespace-separated words.  A blank line is `[]`. -/
abbrev Line := List String

/-- The source's raw-line test `line[0] == '.'`: the first character of the
(non-blank) line — equivalently of its first word — is `'.'`. -/
abbrev lineIsDot (w : Line) : Prop :=
  (w.headD "").data.headD ' ' = '.'

/-- How the `.names` table loop hands control back: at end of input it jumps
to label `M` (post-parse processing); on a line starting with `'.'` it jumps
to label `L`, re-dispatching that line through the outer directive switch. -/
inductive NamesExit
  | eof
  | directive (w : Line) (rest : List Line)
deriving DecidableEq

/-- The PLA-style table loop of the `.names` handler.  `n` is the word count
of the `.names` line itself (2 for the 1-argument form, 3 for the
2-argument form), `cst` the current constant of the target net (1-argument
form) and `saw11` whether a `"1" "1"` row has been seen (2-argument form). -/
def namesLoop (n : Nat) : Value → Bool → List Line → Except String (Value × NamesExit)
  | cst, saw11, [] =>
    if n = 3 ∧ saw11 = false then
      .error "invalid .names directive: unexpected end of file"
    else .ok (cst, .eof)
  | cst, saw11, w :: rest =>
    if w = [] then namesLoop n cst saw11 rest
    else if lineIsDot w then
      if n = 3 ∧ saw11 = false then
        .error "invalid .names directive: .names entry expected"
      else .ok (cst, .directive w rest)
    else if ¬w.length = n - 1 then
      .error "invalid .names entry: number of gates does not match specified number of nets"
    else if n = 2 then
      if w.headD "" = "1" then namesLoop n Value.ONE saw11 rest
      else if ¬w.headD "" = "0" then
        .error "invalid .names entry: gate must be either 1 or 0"
      else namesLoop n cst saw11 rest
    else
      if ¬w.getD 0 "" = "1" ∨ ¬w.getD 1 "" = "1" then
        .error "invalid .names entry: both gates must be 1 here"
      else namesLoop n cst true rest

/-- The observable outcome of one `.names` directive: the net marked
constant together with its final value (1-argument form only), the updated
queue of unification edges, and how control went back to the outer loop. -/
structure NamesOutcome where
  constantSet : Option (String × Value)
  edges : List (String × String)
  exit : NamesExit
deriving DecidableEq

/-- The `.names` directive handler: argument-count dispatch, initial
constant `ZERO` for the 1-argument form, edge queuing `(input, output)` for
the 2-argument form, then the table loop. -/
def dotNames (ws : List String) (edges : List (String × String)) (rest : List Line) :
    Except String NamesOutcome :=
  if ws.length = 2 then
    match namesLoop 2 Value.ZERO false rest with
    | .error m => .error m
    | .ok (v, ex) => .ok ⟨some (ws.getD 1 "", v), edges, ex⟩
  else if ws.length = 3 then
    match namesLoop 3 Value.ZERO false rest with
    | .error m => .error m
    | .ok (_, ex) => .ok ⟨none, edges ++ [(ws.getD 1 "", ws.getD 2 "")], ex⟩
  else
    .error ("invalid .names directive: expected 1 or 2 arguments, got " ++
      toString (ws.length - 1))

/-! ### C5: the 2-argument `.names` table -/

theorem namesLoop3_append (lines : List Line)
    (hrows : ∀ w ∈ lines, w = [] ∨ w = [ "1", "1"]) (tail : List Line) (cst : Value) :
    ∀ saw11 : Bool, namesLoop 3 cst saw11 (lines ++ tail) =
      namesLoop 3 cst (saw11 || lines.contains [ "1", "1"]) tail := by
  induction lines with
  | nil => intro saw11; simp
  | cons w ls ih =>
    intro saw11
    have hls : ∀ x ∈ ls, x = [] ∨ x = [ "1", "1"] :=
      fun x hx => hrows x (List.mem_cons_of_mem w hx)
    rcases hrows w (List.mem_cons_self w ls) with hw | hw
    · subst hw
      calc namesLoop 3 cst saw11 ((([] : Line) :: ls) ++ tail)
          = namesLoop 3 cst saw11 (ls ++ tail) := rfl
        _ = namesLoop 3 cst (saw11 || ls.contains [ "1", "1"]) tail := ih hls saw11
        _ = namesLoop 3 cst (saw11 || ((([] : Line) :: ls).contains [ "1", "1"])) tail := rfl
    · subst hw
      calc namesLoop 3 cst saw11 ((([ "1", "1"] : Line) :: ls) ++ tail)
          = namesLoop 3 cst true (ls ++ tail) := rfl
        _ = namesLoop 3 cst (true || ls.contains [ "1", "1"]) tail := ih hls true
        _ = namesLoop 3 cst (saw11 || ((([ "1", "1"] : Line) :: ls).contains [ "1", "1"])) tail := by
            have h1 : ((([ "1", "1"] : Line) :: ls).contains [ "1", "1"]) = true := rfl
            rw [h1]
            simp

theorem namesLoop3_end_eof (cst : Value) :
    namesLoop 3 cst true [] = .ok (cst, .eof) := by
  rw [namesLoop]
  simp

theorem namesLoop3_end_eof_bad (cst : Value) :
    namesLoop 3 cst false [] =
      .error "invalid .names directive: unexpected end of file" := by
  rw [namesLoop]
  simp

theorem namesLoop3_end_dir (cst : Value) (d : Line) (more : List Line)
    (hd : ¬d = []) (hdot : lineIsDot d) :
    namesLoop 3 cst true (d :: more) = .ok (cst, .directive d more) := by
  rw [namesLoop, if_neg hd, if_pos hdot]
  simp

theorem namesLoop3_end_dir_bad (cst : Value) (d : Line) (more : List Line)
    (hd : ¬d = []) (hdot : lineIsDot d) :
    namesLoop 3 cst false (d :: more) =
      .error "invalid .names directive: .names entry expected" := by
  rw [namesLoop, if_neg hd, if_pos hdot]
  simp

/-- **C5.**  For a 2-argument `.names IN OUT` directive whose table rows
(non-blank lines before the terminator) are all `"1" "1"`: if the table ends
with no such row seen, parsing aborts fatally — with the unexpected-EOF
message at end of input and the entry-expected message at a closing
directive; if at least one row was seen, the exit is accepted and the queued
unification edge `(IN, OUT)` stands. -/
theorem dotNames_two_arg (a b : String) (edges : List (String × String))
    (lines : List Line) (d : Line) (more : List Line)
    (hrows : ∀ w ∈ lines, w = [] ∨ w = [ "1", "1"])
    (hd : ¬d = []) (hdot : lineIsDot d) :
    ((¬[ "1", "1"] ∈ lines) →
      dotNames [ ".names", a, b] edges lines =
        .error "invalid .names directive: unexpected end of file")
    ∧ ((¬[ "1", "1"] ∈ lines) →
      dotNames [ ".names", a, b] edges (lines ++ d :: more) =
        .error "invalid .names directive: .names entry expected")
    ∧ (([ "1", "1"] ∈ lines) →
      dotNames [ ".names", a, b] edges lines =
        .ok ⟨none, edges ++ [(a, b)], .eof⟩)
    ∧ (([ "1", "1"] ∈ lines) →
      dotNames [ ".names", a, b] edges (lines ++ d :: more) =
        .ok ⟨none, edges ++ [(a, b)], .directive d more⟩) := by
  have harity : ∀ rest, dotNames [ ".names", a, b] edges rest =
      match namesLoop 3 Value.ZERO false rest with
      | .error m => .error m
      | .ok (_, ex) => .ok ⟨none, edges ++ [(a, b)], ex⟩ :=
    fun rest => rfl
  have hself : ∀ saw : Bool, namesLoop 3 Value.ZERO false lines =
      namesLoop 3 Value.ZERO (false || lines.contains [ "1", "1"]) [] := by
    intro saw
    have h := namesLoop3_append lines hrows [] Value.ZERO false
    rwa [List.append_nil] at h
  refine ⟨?_, ?_, ?_, ?_⟩
  · intro hmem
    have hc : lines.contains [ "1", "1"] = false := by simpa using hmem
    rw [harity lines, hself true, hc]
    rw [show (false || false) = false from rfl, namesLoop3_end_eof_bad]
  · intro hmem
    have hc : lines.contains [ "1", "1"] = false := by simpa using hmem
    rw [harity (lines ++ d :: more),
      namesLoop3_append lines hrows (d :: more) Value.ZERO false, hc]
    rw [show (false || false) = false from rfl, namesLoop3_end_dir_bad _ _ _ hd hdot]
  · intro hmem
    have hc : lines.contains [ "1", "1"] = true := by simpa using hmem
    rw [harity lines, hself true, hc]
    rw [show (false || true) = true from rfl, namesLoop3_end_eof]
  · intro hmem
    have hc : lines.contains [ "1", "1"] = true := by simpa using hmem
    rw [harity (lines ++ d :: more),
      namesLoop3_append lines hrows (d :: more) Value.ZERO false, hc]
    rw [show (false || true) = true from rfl, namesLoop3_end_dir _ _ _ hd hdot]

theorem dotNames_two_arg_witness :
    dotNames [ ".names", "i", "o"] []
        ([[], [ "1", "1"]] ++ [ ".end"] :: []) =
      .ok ⟨none, [("i", "o")], .directive [ ".end"] []⟩ :=
  (dotNames_two_arg "i" "o" [] [[], [ "1", "1"]] [ ".end"] []
    (by decide) (by decide) (by decide)).2.2.2 (by decide)

/-! ### C10: the 1-argument `.names` table -/

theorem namesLoop2_append (lines : List Line)
    (hrows : ∀ w ∈ lines, w = [] ∨ w = [ "0"] ∨ w = [ "1"]) (tail : List Line) :
    ∀ (cst : Value) (saw11 : Bool), namesLoop 2 cst saw11 (lines ++ tail) =
      namesLoop 2 (if lines.contains [ "1"] then Value.ONE else cst) saw11 tail := by
  induction lines with
  | nil => intro cst saw11; simp
  | cons w ls ih =>
    intro cst saw11
    have hls : ∀ x ∈ ls, x = [] ∨ x = [ "0"] ∨ x = [ "1"] :=
      fun x hx => hrows x (List.mem_cons_of_mem w hx)
    rcases hrows w (List.mem_cons_self w ls) with hw | hw | hw
    · subst hw
      calc namesLoop 2 cst saw11 ((([] : Line) :: ls) ++ tail)
          = namesLoop 2 cst saw11 (ls ++ tail) := rfl
        _ = namesLoop 2 (if ls.contains [ "1"] then Value.ONE else cst) saw11 tail :=
            ih hls cst saw11
        _ = namesLoop 2 (if ((([] : Line) :: ls).contains [ "1"]) then Value.ONE else cst)
              saw11 tail := rfl
    · subst hw
      calc namesLoop 2 cst saw11 ((([ "0"] : Line) :: ls) ++ tail)
          = namesLoop 2 cst saw11 (ls ++ tail) := rfl
        _ = namesLoop 2 (if ls.contains [ "1"] then Value.ONE else cst) saw11 tail :=
            ih hls cst saw11
        _ = namesLoop 2 (if ((([ "0"] : Line) :: ls).contains [ "1"]) then Value.ONE else cst)
              saw11 tail := rfl
    · subst hw
      calc namesLoop 2 cst saw11 ((([ "1"] : Line) :: ls) ++ tail)
          = namesLoop 2 Value.ONE saw11 (ls ++ tail) := rfl
        _ = namesLoop 2 (if ls.contains [ "1"] then Value.ONE else Value.ONE) saw11 tail :=
            ih hls Value.ONE saw11
        _ = namesLoop 2 (if ((([ "1"] : Line) :: ls).contains [ "1"]) then Value.ONE else cst)
              saw11 tail := by
            have h1 : ((([ "1"] : Line) :: ls).contains [ "1"]) = true := rfl
            rw [h1]
            simp

theorem namesLoop2_end_eof (cst : Value) (saw11 : Bool) :
    namesLoop 2 cst saw11 [] = .ok (cst, .eof) := by
  rw [namesLoop]
  simp

theorem namesLoop2_end_dir (cst : Value) (saw11 : Bool) (d : Line) (more : List Line)
    (hd : ¬d = []) (hdot : lineIsDot d) :
    namesLoop 2 cst saw11 (d :: more) = .ok (cst, .directive d more) := by
  rw [namesLoop, if_neg hd, if_pos hdot]
  simp

/-- **C10.**  For a 1-argument `.names OUT` directive whose table rows are
all `"0"` or `"1"`, the final constant of the OUT net is `ONE` iff at least
one `"1"` row appears and `ZERO` otherwise, independently of row order — a
`"0"` row is a no-op and never resets a constant already set to `ONE`. -/
theorem dotNames_one_arg (a : String) (edges : List (String × String))
    (lines : List Line) (d : Line) (more : List Line)
    (hrows : ∀ w ∈ lines, w = [] ∨ w = [ "0"] ∨ w = [ "1"])
    (hd : ¬d = []) (hdot : lineIsDot d) :
    (dotNames [ ".names", a] edges lines =
      .ok ⟨some (a, if [ "1"] ∈ lines then Value.ONE else Value.ZERO), edges, .eof⟩)
    ∧ (dotNames [ ".names", a] edges (lines ++ d :: more) =
      .ok ⟨some (a, if [ "1"] ∈ lines then Value.ONE else Value.ZERO),
        edges, .directive d more⟩) := by
  have harity : ∀ rest, dotNames [ ".names", a] edges rest =
      match namesLoop 2 Value.ZERO false rest with
      | .error m => .error m
      | .ok (v, ex) => .ok ⟨some (a, v), edges, ex⟩ :=
    fun rest => rfl
  constructor
  · have h := namesLoop2_append lines hrows [] Value.ZERO false
    rw [List.append_nil] at h
    rw [harity lines, h]
    by_cases hmem : [ "1"] ∈ lines
    · have hc : lines.contains [ "1"] = true := by simpa using hmem
      rw [hc, if_pos hmem]
      rw [show (if (true : Bool) then Value.ONE else Value.ZERO) = Value.ONE from rfl,
        namesLoop2_end_eof]
    · have hc : lines.contains [ "1"] = false := by simpa using hmem
      rw [hc, if_neg hmem]
      rw [show (if (false : Bool) then Value.ONE else Value.ZERO) = Value.ZERO from rfl,
        namesLoop2_end_eof]
  · have h := namesLoop2_append lines hrows (d :: more) Value.ZERO false
    rw [harity (lines ++ d :: more), h]
    by_cases hmem : [ "1"] ∈ lines
    · have hc : lines.contains [ "1"] = true := by simpa using hmem
      rw [hc, if_pos hmem]
      rw [show (if (true : Bool) then Value.ONE else Value.ZERO) = Value.ONE from rfl,
        namesLoop2_end_dir _ _ _ _ hd hdot]
    · have hc : lines.contains [ "1"] = false := by simpa using hmem
      rw [hc, if_neg hmem]
      rw [show (if (false : Bool) then Value.ONE else Value.ZERO) = Value.ZERO from rfl,
        namesLoop2_end_dir _ _ _ _ hd hdot]

theorem dotNames_one_arg_witness :
    dotNames [ ".names", "o"] [] [[ "0"], [ "1"], [ "0"]] =
      .ok ⟨some ("o", Value.ONE), [], .eof⟩ :=
  (dotNames_one_arg "o" [] [[ "0"], [ "1"], [ "0"]] [ ".end"] []
    (by decide) (by decide) (by decide)).1
/-! ### Net unification (`BlifParser::parse`, after label `M`) -/

/-- Update every binding of key `x` in an association list to value `r` (the
path-compression loop's write `i->second = r`). -/
def setRepl (repl : List (Nat × Nat)) (x r : Nat) : List (Nat × Nat) :=
  repl.map (fun p => if p.1 = x then (p.1, r) else p)

/-- The representative-finding loop
`while (Net *t = lookup_or_default(replacement, r, nullptr)) r = t;`.
The C++ loop terminates because the replacement map stays acyclic (every key
is inserted exactly once, mapped to a representative that is itself key-free
at insertion time); fuel `repl.length + 1` reaches the fixed point on every
state the pass can build. -/
def ufFind (fuel : Nat) (repl : List (Nat × Nat)) (r : Nat) : Nat :=
  match fuel with
  | 0 => r
  | fuel + 1 =>
    match repl.lookup r with
    | none => r
    | some t => ufFind fuel repl t

/-- The path-compression loop `while (x != r) { x = i->second; i->second = r; }`:
every mapping on the path from `x` to the representative `r` is redirected to
point at `r` directly.  (The C++ asserts each visited key is present; on the
states the pass builds it always is, and the model stops if not.) -/
def ufCompress (fuel : Nat) (repl : List (Nat × Nat)) (x r : Nat) : List (Nat × Nat) :=
  match fuel with
  | 0 => repl
  | fuel + 1 =>
    if x = r then repl
    else
      match repl.lookup x with
      | none => repl
      | some t => ufCompress fuel (setRepl repl x r) t r

/-- State of the unification pass: the replacement map (aliased net →
representative, as the ordered association list of inserted entries) and the
connection set of every net (sets of port identifiers). -/
structure UState where
  repl : List (Nat × Nat)
  conns : Nat → Finset Nat

/-- `Net::replace` — modelled from the spec: "a `replace` operation that
redirects every connection currently on one net onto another net".  All of
`b`'s connections move onto `r`; `b` keeps none. -/
def netReplace (conns : Nat → Finset Nat) (b r : Nat) : Nat → Finset Nat :=
  fun x =>
    if x = r then conns r ∪ conns b
    else if x = b then ∅
    else conns x

/-- One iteration of the unify loop on edge `(n1, n2)` — `n1` drives `n2`:
find `n1`'s representative, path-compress, reject a cycle (`n2 == r`),
redirect `n2`'s connections onto `r`, reject a second aliasing of `n2`, and
record `n2 ↦ r`. -/
def unifyStep (st : UState) : Nat × Nat → Except String UState
  | (n1, n2) =>
    let r := ufFind (st.repl.length + 1) st.repl n1
    let repl2 := ufCompress (st.repl.length + 1) st.repl n1 r
    if n2 = r then .error ".names cycle\n"
    else
      let conns2 := netReplace st.conns n2 r
      if (repl2.lookup n2).isSome then .error "conflicting .names outputs"
      else .ok ⟨repl2 ++ [(n2, r)], conns2⟩

/-- The unify loop over the queued edges, in recorded order. -/
def unifyRun : List (Nat × Nat) → UState → Except String UState
  | [], st => .ok st
  | e :: es, st =>
    match unifyStep st e with
    | .error m => .error m
    | .ok st2 => unifyRun es st2

/-- The whole unification pass on a model: run the edges from an empty
replacement map, then remove from the model every net that was aliased away
(`top->remove_net(n)` for each key of the final replacement map). -/
def unifyModel (edges : List (Nat × Nat)) (conns : Nat → Finset Nat)
    (nets : Finset Nat) : Except String (UState × Finset Nat) :=
  match unifyRun edges ⟨[], conns⟩ with
  | .error m => .error m
  | .ok st => .ok (st, nets.filter (fun n => st.repl.lookup n = none))

/-! ### C6: transitive `.names` cycles are fatal -/

theorem unifyRun_cons (e : Nat × Nat) (es : List (Nat × Nat)) (st : UState) :
    unifyRun (e :: es) st =
      match unifyStep st e with
      | .error m => .error m
      | .ok st2 => unifyRun es st2 := rfl

theorem ufFind_nil (fuel : Nat) (r : Nat) : ufFind fuel [] r = r := by
  cases fuel with
  | zero => rfl
  | succ f => rfl

theorem ufCompress_self (fuel : Nat) (repl : List (Nat × Nat)) (x : Nat) :
    ufCompress fuel repl x x = repl := by
  cases fuel with
  | zero => rfl
  | succ f =>
    rw [ufCompress, if_pos rfl]

theorem unifyModel_eq (edges : List (Nat × Nat)) (conns : Nat → Finset Nat)
    (nets : Finset Nat) (st : UState)
    (h : unifyRun edges ⟨[], conns⟩ = .ok st) :
    unifyModel edges conns nets =
      .ok (st, nets.filter (fun n => st.repl.lookup n = none)) := by
  unfold unifyModel
  rw [h]

theorem unifyRun_append (es1 es2 : List (Nat × Nat)) (st : UState) :
    unifyRun (es1 ++ es2) st =
      match unifyRun es1 st with
      | .error m => .error m
      | .ok st2 => unifyRun es2 st2 := by
  induction es1 generalizing st with
  | nil => rfl
  | cons e es ih =>
    rw [List.cons_append]
    rw [show unifyRun (e :: (es ++ es2)) st =
        (match unifyStep st e with
         | .error m => .error m
         | .ok st2 => unifyRun (es ++ es2) st2) from rfl]
    rw [show unifyRun (e :: es) st =
        (match unifyStep st e with
         | .error m => .error m
         | .ok st2 => unifyRun es st2) from rfl]
    cases unifyStep st e with
    | error m => rfl
    | ok st2 => exact ih st2

/-- **C6.**  Whenever the unify loop, after processing some prefix of the
recorded edges without error, meets an edge whose aliased net equals the
driver net's current union-find representative — i.e. the edges so far alias
the net back to itself through any number of intermediate mappings — the
pass aborts fatally with the `.names cycle` error. -/
theorem unify_cycle_fatal (conns : Nat → Finset Nat) (es1 es2 : List (Nat × Nat))
    (st : UState) (a b : Nat)
    (hrun : unifyRun es1 ⟨[], conns⟩ = .ok st)
    (hrep : ufFind (st.repl.length + 1) st.repl a = b) :
    unifyRun (es1 ++ (a, b) :: es2) ⟨[], conns⟩ = .error ".names cycle\n" := by
  rw [unifyRun_append, hrun]
  have hstep : unifyStep st (a, b) = .error ".names cycle\n" := by
    simp only [unifyStep]
    rw [hrep, if_pos rfl]
  show unifyRun ((a, b) :: es2) st = .error ".names cycle\n"
  rw [unifyRun_cons, hstep]

theorem unify_cycle_fatal_witness :
    unifyRun ([(1, 2), (2, 3)] ++ (3, 1) :: []) ⟨[], fun _ => ∅⟩ =
      .error ".names cycle\n" :=
  unify_cycle_fatal (fun _ => ∅) [(1, 2), (2, 3)] []
    ⟨[(2, 1), (3, 1)], netReplace (netReplace (fun _ => ∅) 2 1) 3 1⟩ 3 1 rfl rfl

/-! ### C7: a processed edge merges connection sets and removes the alias -/

/-- **C7.**  Processing the unification edge `(A, B)` — `A` drives `B`,
`A ≠ B` — succeeds, redirects all of `B`'s connections onto `A` so that the
surviving net's connections are exactly the union of `A`'s and `B`'s
original connections, leaves `B` with no connections, and after the pass
`B` is removed from the model's net set. -/
theorem unify_single_edge (conns : Nat → Finset Nat) (nets : Finset Nat)
    (A B : Nat) (hne : ¬A = B) :
    ∃ st : UState,
      unifyModel [(A, B)] conns nets = .ok (st, nets.erase B) ∧
        st.conns A = conns A ∪ conns B ∧
        st.conns B = ∅ ∧
        ¬B ∈ nets.erase B := by
  have hne2 : ¬B = A := fun h => hne h.symm
  refine ⟨⟨[(B, A)], netReplace conns B A⟩, ?_, ?_, ?_, Finset.not_mem_erase B nets⟩
  · have hstep : unifyStep ⟨[], conns⟩ (A, B) =
        .ok ⟨[(B, A)], netReplace conns B A⟩ := by
      simp only [unifyStep]
      rw [ufFind_nil, ufCompress_self, if_neg hne2]
      rfl
    have hrun : unifyRun [(A, B)] ⟨[], conns⟩ =
        .ok ⟨[(B, A)], netReplace conns B A⟩ := by
      rw [unifyRun_cons, hstep]
      rfl
    rw [unifyModel_eq [(A, B)] conns nets _ hrun]
    have hfilter : nets.filter
        (fun n => (([(B, A)] : List (Nat × Nat)).lookup n = none)) = nets.erase B := by
      ext n
      by_cases hnb : n = B
      · subst hnb
        simp [List.lookup]
      · have hbeq : (n == B) = false := by
          simpa using hnb
        simp [List.lookup, hbeq, hnb, Finset.mem_erase]
    rw [hfilter]
  · show netReplace conns B A A = conns A ∪ conns B
    rw [netReplace, if_pos rfl]
  · show netReplace conns B A B = ∅
    rw [netReplace, if_neg hne2, if_pos rfl]

theorem unify_single_edge_witness :
    ∃ st : UState,
      unifyModel [(1, 2)] (fun n => if n = 1 then {10} else if n = 2 then {20} else ∅)
          {1, 2} = .ok (st, ({1, 2} : Finset Nat).erase 2) ∧
        st.conns 1 = (if (1 : Nat) = 1 then {10} else if (1 : Nat) = 2 then {20} else ∅) ∪
          (if (2 : Nat) = 1 then {10} else if (2 : Nat) = 2 then {20} else ∅) ∧
        st.conns 2 = ∅ ∧
        ¬(2 : Nat) ∈ ({1, 2} : Finset Nat).erase 2 :=
  unify_single_edge (fun n => if n = 1 then {10} else if n = 2 then {20} else ∅)
    {1, 2} 1 2 (by decide)

/-! ### The consistency validator (`BlifParser::parse`, after unification) -/

/-- Port direction tag. -/
inductive Direction
  | IN
  | OUT
  | INOUT
deriving DecidableEq

/-- A port as the validator sees it — modelled from the spec's data model
(`netlist.hh` is not part of the embedded source): a name, a direction tag,
the port's role on its connection (`Port::is_output()`, whether it drives
the net), and the connected net's name, if any. -/
structure CPort where
  name : String
  dir : Direction
  isOutput : Bool
  conn : Option String
deriving DecidableEq

/-- An instance of a model inside the top model: the name of the model it
instantiates and its pin bindings. -/
structure VInstance where
  instOf : String
  ports : List CPort
deriving DecidableEq

/-- The finished top model as the validator sees it: its interface ports,
its instances, and its nets (name and `is_constant` flag). -/
structure VModel where
  topPorts : List CPort
  instances : List VInstance
  nets : List (String × Bool)
deriving DecidableEq

/-- Identity of a port: an interface port of the top model (its node is a
`Model`) or pin `j` of instance `i` (its node is an `Instance`). -/
inductive PRef
  | top (i : Nat)
  | inst (i j : Nat)
deriving DecidableEq

def portAt (m : VModel) : PRef → Option CPort
  | .top i => m.topPorts.get? i
  | .inst i j =>
    match m.instances.get? i with
    | some ins => ins.ports.get? j
    | none => none

/-- All port identities of the model. -/
def allRefs (m : VModel) : List PRef :=
  (List.range m.topPorts.length).map PRef.top ++
    (List.range m.instances.length).flatMap (fun i =>
      (List.range (((m.instances.get? i).map (fun ins => ins.ports.length)).getD 0)).map
        (PRef.inst i))

/-- The ports connected to net `net` — modelled from the spec: a net tracks
"the set of Ports currently connected to it" (`n->connections()`). -/
def connectedTo (m : VModel) (net : String) : List PRef :=
  (allRefs m).filter (fun r =>
    match portAt m r with
    | some cp => cp.conn == some net
    | none => false)

/-- `Port::connection_other_port` — modelled from the spec: "Two ports on
the same net can be queried for the other port when exactly one other
connection exists." -/
def otherPort (m : VModel) (p : PRef) : Option PRef :=
  match portAt m p with
  | none => none
  | some cp =>
    match cp.conn with
    | none => none
    | some n =>
      match (connectedTo m n).filter (fun q => q != p) with
      | [q] => some q
      | _ => none

/-- The condition checked on the other port `q` in the bidirectional-port
loop: `isa<Instance>(q->node())`, the instance instantiates `SB_IO`, and
the pin is named `PACKAGE_PIN`. -/
def qOk (m : VModel) (q : PRef) : Bool :=
  match q with
  | .top _ => false
  | .inst i _ =>
    (match m.instances.get? i with
     | some ins => ins.instOf == "SB_IO"
     | none => false) &&
    (match portAt m q with
     | some cp => cp.name == "PACKAGE_PIN"
     | none => false)

def bidirMsg (nm : String) : String :=
  "toplevel inout port \x27" ++ nm ++ "\x27 not connected to SB_IO PACKAGE_PIN"

/-- The bidirectional-port loop of the validator: every INOUT top port with
a connected net must have its other port on an `SB_IO` `PACKAGE_PIN`. -/
def bidirCheck (m : VModel) : List Nat → Except String Unit
  | [] => .ok ()
  | i :: rest =>
    match m.topPorts.get? i with
    | none => bidirCheck m rest
    | some cp =>
      if cp.dir = Direction.INOUT then
        match cp.conn with
        | none => bidirCheck m rest
        | some _ =>
          match otherPort m (PRef.top i) with
          | none => .error (bidirMsg cp.name)
          | some q =>
            if qOk m q then bidirCheck m rest else .error (bidirMsg cp.name)
      else bidirCheck m rest

def checkBidir (m : VModel) : Except String Unit :=
  bidirCheck m (List.range m.topPorts.length)

def boundaryMsg : String := "SB_IO PACKAGE_PIN not connected to toplevel port"

/-- `inst2->find_port("PACKAGE_PIN")`, as the index of that pin.  (In the
C++ netlist every formal pin of the instantiated model can be looked up; a
missing entry behaves like an unconnected pin, which is fatal below.) -/
def pkgPinIdx (ins : VInstance) : Option Nat :=
  ins.ports.findIdx? (fun cp => cp.name == "PACKAGE_PIN")

/-- The boundary-net loop: for every instance of `SB_IO`, its `PACKAGE_PIN`
net — provided the pin is connected and its other port belongs to the top
model — is recorded as a boundary net; malformed wiring is fatal. -/
def boundaryLoop (m : VModel) : List Nat → Finset String → Except String (Finset String)
  | [], acc => .ok acc
  | i :: rest, acc =>
    match m.instances.get? i with
    | none => boundaryLoop m rest acc
    | some ins =>
      if ins.instOf = "SB_IO" then
        match pkgPinIdx ins with
        | none => .error boundaryMsg
        | some j =>
          match portAt m (PRef.inst i j) with
          | none => .error boundaryMsg
          | some cp =>
            match cp.conn, otherPort m (PRef.inst i j) with
            | some n, some (PRef.top _) => boundaryLoop m rest (insert n acc)
            | _, _ => .error boundaryMsg
      else boundaryLoop m rest acc

def boundaryNets (m : VModel) : Except String (Finset String) :=
  boundaryLoop m (List.range m.instances.length) ∅

/-- The connected ports of net `net` whose role on the connection is output
— the drivers among `n->connections()`. -/
def outputConnections (m : VModel) (net : String) : List PRef :=
  (connectedTo m net).filter (fun r =>
    match portAt m r with
    | some cp => cp.isOutput
    | none => false)

def driversMsg (nm : String) : String :=
  "net `" ++ nm ++ "\x27 has multiple drivers"

/-- The single-driver loop: boundary nets are skipped; otherwise one driver
for a constant plus one per output-role connection, more than one fatal. -/
def driversLoop (m : VModel) (boundary : Finset String) :
    List (String × Bool) → Except String Unit
  | [] => .ok ()
  | (nm, isc) :: rest =>
    if nm ∈ boundary then driversLoop m boundary rest
    else if (if isc then 1 else 0) + (outputConnections m nm).length > 1 then
      .error (driversMsg nm)
    else driversLoop m boundary rest

/-- The driver-validation tail of `BlifParser::parse`: compute the boundary
nets, then apply the single-driver rule to every net of the top model. -/
def driverValidation (m : VModel) : Except String Unit :=
  match boundaryNets m with
  | .error e => .error e
  | .ok b => driversLoop m b m.nets

/-! ### C8: the single-driver invariant -/

theorem driversLoop_spec (m : VModel) (B : Finset String) (l : List (String × Bool)) :
    (driversLoop m B l = .ok () ↔
      ∀ p ∈ l, ¬p.1 ∈ B →
        (if p.2 then 1 else 0) + (outputConnections m p.1).length ≤ 1)
    ∧ (∀ e, driversLoop m B l = .error e → ∃ nm, e = driversMsg nm) := by
  induction l with
  | nil =>
    constructor
    · simp [driversLoop]
    · intro e h
      exact Except.noConfusion h
  | cons p rest ih =>
    obtain ⟨nm, isc⟩ := p
    by_cases hb : nm ∈ B
    · have hstep : driversLoop m B ((nm, isc) :: rest) = driversLoop m B rest := by
        simp only [driversLoop]
        rw [if_pos hb]
      constructor
      · rw [hstep, ih.1]
        constructor
        · intro h q hq hqB
          rcases List.mem_cons.mp hq with rfl | hq2
          · exact absurd hb hqB
          · exact h q hq2 hqB
        · intro h q hq hqB
          exact h q (List.mem_cons_of_mem _ hq) hqB
      · intro e he
        rw [hstep] at he
        exact ih.2 e he
    · by_cases hcnt : (if isc then 1 else 0) + (outputConnections m nm).length > 1
      · have hstep : driversLoop m B ((nm, isc) :: rest) = .error (driversMsg nm) := by
          simp only [driversLoop]
          rw [if_neg hb, if_pos hcnt]
        constructor
        · rw [hstep]
          constructor
          · intro h
            exact Except.noConfusion h
          · intro h
            exfalso
            have h2 := h (nm, isc) (List.mem_cons_self _ _) hb
            exact absurd hcnt (by simpa using h2)
        · intro e he
          rw [hstep] at he
          exact ⟨nm, (Except.error.inj he).symm⟩
      · have hstep : driversLoop m B ((nm, isc) :: rest) = driversLoop m B rest := by
          simp only [driversLoop]
          rw [if_neg hb, if_neg hcnt]
        constructor
        · rw [hstep, ih.1]
          constructor
          · intro h q hq hqB
            rcases List.mem_cons.mp hq with rfl | hq2
            · exact le_of_not_lt hcnt
            · exact h q hq2 hqB
          · intro h q hq hqB
            exact h q (List.mem_cons_of_mem _ hq) hqB
        · intro e he
          rw [hstep] at he
          exact ih.2 e he

/-- **C8.**  With the boundary nets computed from the `SB_IO` instances'
`PACKAGE_PIN` pins, driver validation succeeds iff every net of the top
model that is not a boundary net has at most one driver, the driver count
being (1 if the net is marked constant) plus the number of connected ports
whose role on the net is output; a non-boundary net with more drivers is
fatal with the multiple-drivers message, while the identical configuration
on a boundary net is accepted (boundary nets are exempt). -/
theorem drivers_spec (m : VModel) (B : Finset String)
    (hB : boundaryNets m = .ok B) :
    (driverValidation m = .ok () ↔
      ∀ p ∈ m.nets, ¬p.1 ∈ B →
        (if p.2 then 1 else 0) + (outputConnections m p.1).length ≤ 1)
    ∧ (∀ e, driverValidation m = .error e → ∃ nm, e = driversMsg nm) := by
  have hval : driverValidation m = driversLoop m B m.nets := by
    unfold driverValidation
    rw [hB]
  rw [hval]
  exact driversLoop_spec m B m.nets

/-- A model whose single net `n` has two output-role connections (a top
port and an `SB_IO` `PACKAGE_PIN` pin) but is a boundary net. -/
def boundarySample : VModel :=
  ⟨[⟨"p", Direction.IN, true, some "n"⟩],
   [⟨"SB_IO", [⟨"PACKAGE_PIN", Direction.INOUT, true, some "n"⟩]⟩],
   [("n", false)]⟩

theorem drivers_spec_witness :
    driverValidation boundarySample = .ok () :=
  (drivers_spec boundarySample (insert "n" ∅) rfl).1.mpr (by decide)

/-! ### C9: bidirectional top-level ports must sit on SB_IO PACKAGE_PIN -/

/-- The wiring the claim requires of top port `i` when it is INOUT and
connected: the net's single other connected port exists, is an instance pin
(its node is an `Instance`), the instance instantiates `SB_IO`, and the pin
is named `PACKAGE_PIN`.  An INOUT port with no connected net is exempt. -/
def BidirOkAt (m : VModel) (i : Nat) : Prop :=
  ∀ cp ∈ m.topPorts.get? i, cp.dir = Direction.INOUT → cp.conn ≠ none →
    ∃ a b, otherPort m (PRef.top i) = some (PRef.inst a b) ∧
      ((∃ ins ∈ m.instances.get? a, ins.instOf = "SB_IO") ∧
       (∃ cp2 ∈ portAt m (PRef.inst a b), cp2.name = "PACKAGE_PIN"))

theorem qOk_inst_iff (m : VModel) (a b : Nat) :
    qOk m (PRef.inst a b) = true ↔
      ((∃ ins ∈ m.instances.get? a, ins.instOf = "SB_IO") ∧
       (∃ cp2 ∈ portAt m (PRef.inst a b), cp2.name = "PACKAGE_PIN")) := by
  simp only [qOk, Bool.and_eq_true]
  constructor
  · rintro ⟨h1, h2⟩
    constructor
    · cases hg : m.instances.get? a with
      | none =>
        rw [hg] at h1
        exact Bool.noConfusion h1
      | some ins =>
        rw [hg] at h1
        refine ⟨ins, by simp [hg], ?_⟩
        simpa using h1
    · cases hp : portAt m (PRef.inst a b) with
      | none =>
        rw [hp] at h2
        exact Bool.noConfusion h2
      | some cp2 =>
        rw [hp] at h2
        refine ⟨cp2, by simp [hp], ?_⟩
        simpa using h2
  · rintro ⟨⟨ins, hins, hio⟩, ⟨cp2, hcp2, hname⟩⟩
    rw [Option.mem_def] at hins hcp2
    rw [hins, hcp2]
    constructor
    · simpa using hio
    · simpa using hname

theorem bidir_combine (m : VModel) (i : Nat) (rest : List Nat)
    (hstep : bidirCheck m (i :: rest) = bidirCheck m rest)
    (hok : BidirOkAt m i)
    (ih : (bidirCheck m rest = .ok () ↔ ∀ j ∈ rest, BidirOkAt m j)
      ∧ (∀ e, bidirCheck m rest = .error e → ∃ nm, e = bidirMsg nm)) :
    (bidirCheck m (i :: rest) = .ok () ↔ ∀ j ∈ i :: rest, BidirOkAt m j)
    ∧ (∀ e, bidirCheck m (i :: rest) = .error e → ∃ nm, e = bidirMsg nm) := by
  constructor
  · rw [hstep, ih.1]
    constructor
    · intro h j hj
      rcases List.mem_cons.mp hj with rfl | hj2
      · exact hok
      · exact h j hj2
    · intro h j hj
      exact h j (List.mem_cons_of_mem _ hj)
  · intro e he
    rw [hstep] at he
    exact ih.2 e he

theorem bidir_combine_err (m : VModel) (i : Nat) (rest : List Nat) (nm : String)
    (hstep : bidirCheck m (i :: rest) = .error (bidirMsg nm))
    (hbad : ¬BidirOkAt m i) :
    (bidirCheck m (i :: rest) = .ok () ↔ ∀ j ∈ i :: rest, BidirOkAt m j)
    ∧ (∀ e, bidirCheck m (i :: rest) = .error e → ∃ nm2, e = bidirMsg nm2) := by
  constructor
  · rw [hstep]
    constructor
    · intro h
      exact Except.noConfusion h
    · intro h
      exact absurd (h i (List.mem_cons_self _ _)) hbad
  · intro e he
    rw [hstep] at he
    exact ⟨nm, (Except.error.inj he).symm⟩

theorem bidirCheck_spec (m : VModel) (l : List Nat) :
    (bidirCheck m l = .ok () ↔ ∀ i ∈ l, BidirOkAt m i)
    ∧ (∀ e, bidirCheck m l = .error e → ∃ nm, e = bidirMsg nm) := by
  induction l with
  | nil =>
    constructor
    · simp [bidirCheck]
    · intro e h
      exact Except.noConfusion h
  | cons i rest ih =>
    cases hget : m.topPorts.get? i with
    | none =>
      refine bidir_combine m i rest ?_ ?_ ih
      · simp only [bidirCheck, hget]
      · intro cp hcp
        rw [Option.mem_def, hget] at hcp
        exact Option.noConfusion hcp
    | some cp =>
      by_cases hdir : cp.dir = Direction.INOUT
      · cases hconn : cp.conn with
        | none =>
          refine bidir_combine m i rest ?_ ?_ ih
          · simp only [bidirCheck, hget]
            rw [if_pos hdir]
            simp only [hconn]
          · intro cp2 hcp2 hdir2 hconn2
            rw [Option.mem_def, hget] at hcp2
            obtain rfl : cp = cp2 := Option.some.inj hcp2
            exact absurd hconn hconn2
        | some n =>
          have hmem : cp ∈ m.topPorts.get? i := by
            rw [Option.mem_def, hget]
          have hconn2 : cp.conn ≠ none := by
            rw [hconn]
            exact fun h => Option.noConfusion h
          cases hq : otherPort m (PRef.top i) with
          | none =>
            refine bidir_combine_err m i rest cp.name ?_ ?_
            · simp only [bidirCheck, hget]
              rw [if_pos hdir]
              simp only [hconn, hq]
            · intro hok2
              obtain ⟨a, b2, hop, _⟩ := hok2 cp hmem hdir hconn2
              rw [hq] at hop
              exact Option.noConfusion hop
          | some q =>
            cases q with
            | top a =>
              refine bidir_combine_err m i rest cp.name ?_ ?_
              · simp only [bidirCheck, hget]
                rw [if_pos hdir]
                simp only [hconn, hq, qOk]
                rfl
              · intro hok2
                obtain ⟨a2, b2, hop, _⟩ := hok2 cp hmem hdir hconn2
                rw [hq] at hop
                exact PRef.noConfusion (Option.some.inj hop)
            | inst a b2 =>
              by_cases hqok : qOk m (PRef.inst a b2) = true
              · refine bidir_combine m i rest ?_ ?_ ih
                · simp only [bidirCheck, hget]
                  rw [if_pos hdir]
                  simp only [hconn, hq]
                  rw [if_pos hqok]
                · intro cp2 hcp2 hdir2 hconn3
                  exact ⟨a, b2, hq, (qOk_inst_iff m a b2).mp hqok⟩
              · refine bidir_combine_err m i rest cp.name ?_ ?_
                · simp only [bidirCheck, hget]
                  rw [if_pos hdir]
                  simp only [hconn, hq]
                  rw [if_neg hqok]
                · intro hok2
                  obtain ⟨a2, b3, hop, hconds⟩ := hok2 cp hmem hdir hconn2
                  rw [hq] at hop
                  obtain ⟨rfl, rfl⟩ := PRef.inst.inj (Option.some.inj hop)
                  exact hqok ((qOk_inst_iff m a b2).mpr hconds)
      · refine bidir_combine m i rest ?_ ?_ ih
        · simp only [bidirCheck, hget]
          rw [if_neg hdir]
        · intro cp2 hcp2 hdir2
          rw [Option.mem_def, hget] at hcp2
          obtain rfl : cp = cp2 := Option.some.inj hcp2
          exact absurd hdir2 hdir

/-- **C9.**  The bidirectional-port check succeeds iff every INOUT top-level
port with a connected net has, as the net's single other connected port, a
`PACKAGE_PIN` pin of an `SB_IO` instance (an INOUT port with no connected
net is not checked); every failure carries the
`toplevel inout port ... not connected to SB_IO PACKAGE_PIN` message. -/
theorem bidir_spec (m : VModel) :
    (checkBidir m = .ok () ↔ ∀ i, i < m.topPorts.length → BidirOkAt m i)
    ∧ (∀ e, checkBidir m = .error e → ∃ nm, e = bidirMsg nm) := by
  have h := bidirCheck_spec m (List.range m.topPorts.length)
  constructor
  · rw [show checkBidir m = bidirCheck m (List.range m.topPorts.length) from rfl, h.1]
    constructor
    · intro hh i hi
      exact hh i (List.mem_range.mpr hi)
    · intro hh i hi
      exact hh i (List.mem_range.mp hi)
  · intro e he
    exact h.2 e he

/-- A model whose INOUT top port sits on a net whose only other connection
is a plain instance pin — not an `SB_IO` `PACKAGE_PIN`. -/
def bidirSample : VModel :=
  ⟨[⟨"p", Direction.INOUT, false, some "n"⟩],
   [⟨"OTHER", [⟨"X", Direction.IN, false, some "n"⟩]⟩],
   [("n", false)]⟩

theorem bidir_spec_witness :
    ∃ nm, bidirMsg "p" = bidirMsg nm :=
  (bidir_spec bidirSample).2 (bidirMsg "p") rfl

end Blif
